import Mathlib

/-!
Verification of the CodeSandbox link injector in `docs/lib/codesandbox.js`.

JavaScript strings are modelled as lists of UTF-16 code units (`List Nat`),
so character-level operations (the URL-safe substitutions of `compress`, JSON
string escaping, base64 transport) are stated exactly on code units.
The host-environment collaborators that the script calls but that are not part
of this repository (`JSON.stringify` / `JSON.parse`, the `LZString` global
loaded from a CDN) are modelled from the spec's description and marked as such.
-/

/-- The UTF-16 code units of a (BMP) string literal; every string appearing in
the source file is ASCII, where code unit = code point. -/
def codeUnits (s : String) : List Nat := s.toList.map Char.toNat

/-- All code units of the list are valid UTF-16 code units (below 2^16). -/
def wfUnits (l : List Nat) : Bool := l.all (fun c => c < 65536)

/-- `String.prototype.replace` with a global single-character pattern:
every occurrence of code unit `a` becomes code unit `b`. -/
def replAll (a b : Nat) (l : List Nat) : List Nat :=
  l.map (fun c => if c = a then b else c)

/-- `String.prototype.replace` with pattern `/=+$/`: remove the maximal
trailing run of `=` (code unit 61). -/
def rtrimEq (l : List Nat) : List Nat :=
  (l.reverse.dropWhile (fun c => c = 61)).reverse

/-- Append `=` padding (code unit 61) until the length is a multiple of 4,
as base64 output is padded. -/
def padEq (l : List Nat) : List Nat :=
  l ++ List.replicate ((4 - l.length % 4) % 4) 61

theorem rtrimEq_append_replicate (xs : List Nat) (k : Nat)
    (h : ∀ c ∈ xs, c ≠ 61) : rtrimEq (xs ++ List.replicate k 61) = xs := by
  unfold rtrimEq
  rw [List.reverse_append, List.reverse_replicate]
  have hrep : ∀ n, List.dropWhile (fun c => decide (c = 61))
      (List.replicate n 61 ++ xs.reverse) = List.dropWhile (fun c => decide (c = 61)) xs.reverse := by
    intro n
    induction n with
    | zero => simp
    | succ m ih => simp [List.replicate_succ, List.dropWhile, ih]
  rw [hrep]
  cases hx : xs.reverse with
  | nil => simp at hx; simp [hx]
  | cons c t =>
    have hc : c ∈ xs := by
      have : c ∈ xs.reverse := by rw [hx]; exact List.mem_cons_self c t
      simpa using this
    have : (decide (c = 61)) = false := by simp [h c hc]
    rw [List.dropWhile_cons, this]
    simp [← hx]

theorem rtrimEq_getLast? (l : List Nat) : (rtrimEq l).getLast? ≠ some 61 := by
  unfold rtrimEq
  rw [List.getLast?_reverse]
  cases hd : List.dropWhile (fun c => decide (c = 61)) l.reverse with
  | nil => simp
  | cons c t =>
    have := List.head?_dropWhile_not (fun c => decide (c = 61)) l.reverse
    rw [hd] at this
    simp only [List.head?_cons] at this ⊢
    intro hcontra
    have hc : c = 61 := by simpa using hcontra
    simp [hc] at this

theorem mem_rtrimEq {c : Nat} {l : List Nat} (h : c ∈ rtrimEq l) : c ∈ l := by
  unfold rtrimEq at h
  rw [List.mem_reverse] at h
  have := (List.dropWhile_sublist (l := l.reverse) (fun c => decide (c = 61))).mem h
  simpa using this

/-! ### JSON string quoting (the string fragment of `JSON.stringify` / `JSON.parse`) -/

/-- Lowercase hex digit character for a value below 16, as produced by the
JavaScript `\u00XX` escapes of `JSON.stringify`. -/
def hexDig (d : Nat) : Nat :=
  if d < 10 then 48 + d else 87 + d

/-- Value of a hex digit character, accepting both cases as `JSON.parse` does. -/
def fromHexDig (c : Nat) : Option Nat :=
  if 48 ≤ c ∧ c ≤ 57 then some (c - 48)
  else if 97 ≤ c ∧ c ≤ 102 then some (c - 87)
  else if 65 ≤ c ∧ c ≤ 70 then some (c - 55)
  else none

theorem fromHexDig_hexDig (d : Nat) (h : d < 16) : fromHexDig (hexDig d) = some d := by
  unfold hexDig fromHexDig
  split_ifs <;> (first | (congr 1; omega) | omega)

/-- Modelled from the spec: the string-quoting step of the host environment's
`JSON.stringify` ("serialize to JSON text"), one code unit at a time. The two
JSON metacharacters and the named control escapes get their two-character
escapes, the remaining control units get `\u00XX`, and every other unit is
emitted verbatim. -/
def escapeUnit (c : Nat) : List Nat :=
  if c = 34 then [92, 34]
  else if c = 92 then [92, 92]
  else if c = 8 then [92, 98]
  else if c = 9 then [92, 116]
  else if c = 10 then [92, 110]
  else if c = 12 then [92, 102]
  else if c = 13 then [92, 114]
  else if c < 32 then [92, 117, 48, 48, hexDig (c / 16), hexDig (c % 16)]
  else [c]

/-- The code unit named by a single-character escape in `JSON.parse`. -/
def unescapeUnit (e : Nat) : Option Nat :=
  if e = 34 then some 34
  else if e = 92 then some 92
  else if e = 47 then some 47
  else if e = 98 then some 8
  else if e = 116 then some 9
  else if e = 110 then some 10
  else if e = 102 then some 12
  else if e = 114 then some 13
  else none

/-- Body of a JSON string literal: every code unit escaped as needed. -/
def quoteBody (s : List Nat) : List Nat := (s.map escapeUnit).flatten

/-- A complete JSON string literal: `"` body `"`. -/
def quoteStr (s : List Nat) : List Nat := 34 :: (quoteBody s ++ [34])

/-- Modelled from the spec: the string-literal fragment of the host
environment's `JSON.parse`. Consumes escaped code units up to the closing
quote and returns the decoded units and the rest of the input. -/
def parseStrBody : List Nat → Option (List Nat × List Nat)
  | [] => none
  | c :: rest =>
    if c = 34 then some ([], rest)
    else if c = 92 then
      match rest with
      | 117 :: h1 :: h2 :: h3 :: h4 :: r2 =>
        (match fromHexDig h1, fromHexDig h2, fromHexDig h3, fromHexDig h4 with
         | some d1, some d2, some d3, some d4 =>
           (match parseStrBody r2 with
            | some (s, r3) => some ((((d1 * 16 + d2) * 16 + d3) * 16 + d4) :: s, r3)
            | none => none)
         | _, _, _, _ => none)
      | e :: r2 =>
        (match unescapeUnit e with
         | some u =>
           (match parseStrBody r2 with
            | some (s, r3) => some (u :: s, r3)
            | none => none)
         | none => none)
      | [] => none
    else
      match parseStrBody rest with
      | some (s, r1) => some (c :: s, r1)
      | none => none

/-- Parsing one escaped code unit undoes the escaping and continues. -/
theorem parseStrBody_escape (c : Nat) (t : List Nat) :
    parseStrBody (escapeUnit c ++ t)
      = (parseStrBody t).map (fun p => (c :: p.1, p.2)) := by
  unfold escapeUnit
  split_ifs with h34 h92 h8 h9 h10 h12 h13 hlt
  · subst h34
    simp only [List.cons_append, List.nil_append, parseStrBody, unescapeUnit]
    cases h : parseStrBody t <;> simp [h]
  · subst h92
    simp only [List.cons_append, List.nil_append, parseStrBody, unescapeUnit]
    cases h : parseStrBody t <;> simp [h]
  · subst h8
    simp only [List.cons_append, List.nil_append, parseStrBody, unescapeUnit]
    cases h : parseStrBody t <;> simp [h]
  · subst h9
    simp only [List.cons_append, List.nil_append, parseStrBody, unescapeUnit]
    cases h : parseStrBody t <;> simp [h]
  · subst h10
    simp only [List.cons_append, List.nil_append, parseStrBody, unescapeUnit]
    cases h : parseStrBody t <;> simp [h]
  · subst h12
    simp only [List.cons_append, List.nil_append, parseStrBody, unescapeUnit]
    cases h : parseStrBody t <;> simp [h]
  · subst h13
    simp only [List.cons_append, List.nil_append, parseStrBody, unescapeUnit]
    cases h : parseStrBody t <;> simp [h]
  · have hdiv : c / 16 < 16 := by omega
    have hmod : c % 16 < 16 := by omega
    have h48 : fromHexDig 48 = some 0 := by decide
    have harith : ((0 * 16 + 0) * 16 + c / 16) * 16 + c % 16 = c := by omega
    simp only [List.cons_append, List.nil_append, parseStrBody,
      fromHexDig_hexDig _ hdiv, fromHexDig_hexDig _ hmod, h48, harith]
    cases h : parseStrBody t <;> simp [h]
  · simp only [List.cons_append, List.nil_append]
    rw [parseStrBody.eq_def]
    simp only [if_neg h34, if_neg h92]
    cases h : parseStrBody t <;> simp [h]

/-- The string codec round-trip: parsing a quoted body recovers the units. -/
theorem parseStrBody_quote (s : List Nat) (rest : List Nat) :
    parseStrBody (quoteBody s ++ 34 :: rest) = some (s, rest) := by
  induction s with
  | nil =>
    simp only [quoteBody, List.map_nil, List.flatten_nil, List.nil_append]
    rw [parseStrBody.eq_def]
    simp
  | cons c t ih =>
    have hq : quoteBody (c :: t) = escapeUnit c ++ quoteBody t := by
      simp [quoteBody]
    rw [hq, List.append_assoc, parseStrBody_escape, ih]
    rfl

/-! ### The compression utility (`LZString` global, loaded from a CDN) -/

namespace LZString

/-- Sextet value to base64 alphabet character (`A-Za-z0-9+/`). -/
def b64Char (n : Nat) : Nat :=
  if n < 26 then 65 + n
  else if n < 52 then 97 + (n - 26)
  else if n < 62 then 48 + (n - 52)
  else if n = 62 then 43
  else 47

/-- Base64 alphabet character back to its sextet value. -/
def b64Val (c : Nat) : Option Nat :=
  if 65 ≤ c ∧ c ≤ 90 then some (c - 65)
  else if 97 ≤ c ∧ c ≤ 122 then some (c - 97 + 26)
  else if 48 ≤ c ∧ c ≤ 57 then some (c - 48 + 52)
  else if c = 43 then some 62
  else if c = 47 then some 63
  else none

/-- Each input code unit as three base64 characters (16 bits in 18). -/
def encodeUnits (l : List Nat) : List Nat :=
  (l.map (fun c => [b64Char (c / 4096), b64Char (c / 64 % 64), b64Char (c % 64)])).flatten

/-- Modelled from the spec: the third-party compression utility's
`compressToBase64`. The repository does not contain LZString; the spec only
requires a synchronous function that "compresses to a base64-like alphabet"
with `=` padding, whose base64 decoder inverts it, so the length-reduction
scheme itself is modelled as a plain base64 code over the code units. -/
def compressToBase64 (l : List Nat) : List Nat := padEq (encodeUnits l)

/-- Three base64 characters back to one code unit, over the whole list. -/
def decodeUnits : List Nat → Option (List Nat)
  | [] => some []
  | c1 :: c2 :: c3 :: rest =>
    (match b64Val c1, b64Val c2, b64Val c3 with
     | some s1, some s2, some s3 =>
       (match decodeUnits rest with
        | some r => some ((s1 * 4096 + s2 * 64 + s3) :: r)
        | none => none)
     | _, _, _ => none)
  | _ => none

/-- Modelled from the spec: the LZ-string base64 decoder that claim decoding
uses; strips the `=` padding and inverts `compressToBase64`. -/
def decompressFromBase64 (l : List Nat) : Option (List Nat) :=
  decodeUnits (rtrimEq l)

theorem b64Val_b64Char (n : Nat) (h : n < 64) : b64Val (b64Char n) = some n := by
  unfold b64Char b64Val
  split_ifs <;> (first | (congr 1; omega) | omega)

theorem b64Char_bounds (n : Nat) :
    b64Char n ≠ 45 ∧ b64Char n ≠ 61 ∧ b64Char n ≠ 95 := by
  unfold b64Char
  split_ifs <;> omega

theorem mem_encodeUnits {c : Nat} {l : List Nat} (h : c ∈ encodeUnits l) :
    ∃ n, c = b64Char n := by
  unfold encodeUnits at h
  rw [List.mem_flatten] at h
  obtain ⟨trip, htrip, hc⟩ := h
  rw [List.mem_map] at htrip
  obtain ⟨u, _, rfl⟩ := htrip
  simp only [List.mem_cons, List.mem_singleton, List.not_mem_nil, or_false] at hc
  rcases hc with h1 | h2 | h3
  · exact ⟨u / 4096, h1⟩
  · exact ⟨u / 64 % 64, h2⟩
  · exact ⟨u % 64, h3⟩

theorem decodeUnits_encodeUnits (l : List Nat) (h : wfUnits l = true) :
    decodeUnits (encodeUnits l) = some l := by
  induction l with
  | nil => simp [encodeUnits, decodeUnits]
  | cons c t ih =>
    simp only [wfUnits, List.all_cons, Bool.and_eq_true, decide_eq_true_eq] at h
    have hc : c < 65536 := h.1
    have ht : wfUnits t = true := by simp [wfUnits, h.2]
    have henc : encodeUnits (c :: t)
        = b64Char (c / 4096) :: b64Char (c / 64 % 64) :: b64Char (c % 64) :: encodeUnits t := by
      simp [encodeUnits]
    rw [henc, decodeUnits, b64Val_b64Char _ (by omega), b64Val_b64Char _ (by omega),
      b64Val_b64Char _ (by omega), ih ht]
    have : c / 4096 * 4096 + c / 64 % 64 * 64 + c % 64 = c := by omega
    simp [this]

theorem decompress_compress (l : List Nat) (h : wfUnits l = true) :
    decompressFromBase64 (compressToBase64 l) = some l := by
  unfold decompressFromBase64 compressToBase64 padEq
  rw [rtrimEq_append_replicate _ _
    (fun c hc => by obtain ⟨n, rfl⟩ := mem_encodeUnits hc; exact (b64Char_bounds n).2.1)]
  exact decodeUnits_encodeUnits l h

end LZString

/-! ### JSON documents

The project template built by `getFiles` contains only strings, booleans,
string arrays and nested objects, so the JSON fragment needed to state the
claims has exactly those constructors. -/

/-- A JSON value of the fragment the project template uses. Object members
keep insertion order, as `JSON.stringify` serializes them. -/
inductive JVal where
  | jstr (s : List Nat)
  | jbool (b : Bool)
  | jarr (elems : List JVal)
  | jobj (members : List (List Nat × JVal))

mutual
/-- Modelled from the spec: the host environment's `JSON.stringify`
("serialize to JSON text"), emitting no insignificant whitespace. -/
def stringifyVal : JVal → List Nat
  | .jstr s => quoteStr s
  | .jbool true => [116, 114, 117, 101]
  | .jbool false => [102, 97, 108, 115, 101]
  | .jarr es => 91 :: (stringifyElems es ++ [93])
  | .jobj ms => 123 :: (stringifyMembers ms ++ [125])
/-- Array elements joined by commas (without the brackets). -/
def stringifyElems : List JVal → List Nat
  | [] => []
  | e :: es => stringifyVal e ++ elemSep es
/-- The `,`-separated continuation of a non-empty array. -/
def elemSep : List JVal → List Nat
  | [] => []
  | x :: xs => 44 :: (stringifyVal x ++ elemSep xs)
/-- Object members `"key":value` joined by commas (without the braces). -/
def stringifyMembers : List (List Nat × JVal) → List Nat
  | [] => []
  | (k, v) :: ms => quoteStr k ++ 58 :: (stringifyVal v ++ memberSep ms)
/-- The `,`-separated continuation of a non-empty object. -/
def memberSep : List (List Nat × JVal) → List Nat
  | [] => []
  | (k, v) :: ms => 44 :: (quoteStr k ++ 58 :: (stringifyVal v ++ memberSep ms))
end

theorem elemSep_cons (x : JVal) (xs : List JVal) :
    elemSep (x :: xs) = 44 :: stringifyElems (x :: xs) := rfl

theorem memberSep_cons (m : List Nat × JVal) (ms : List (List Nat × JVal)) :
    memberSep (m :: ms) = 44 :: stringifyMembers (m :: ms) := by
  obtain ⟨k, v⟩ := m
  rfl

mutual
/-- Modelled from the spec: the host environment's `JSON.parse` on the
grammar fragment `JSON.stringify` emits for the template (no whitespace,
strings, booleans, arrays, objects), structural on a fuel counter. -/
def parseVal : Nat → List Nat → Option (JVal × List Nat)
  | 0, _ => none
  | fuel + 1, l =>
    match l with
    | 116 :: 114 :: 117 :: 101 :: r => some (.jbool true, r)
    | 102 :: 97 :: 108 :: 115 :: 101 :: r => some (.jbool false, r)
    | 34 :: r =>
      (match parseStrBody r with
       | some (s, r1) => some (.jstr s, r1)
       | none => none)
    | 91 :: r =>
      (match r with
       | c :: r1 =>
         if c = 93 then some (.jarr [], r1)
         else
           (match parseElems fuel (c :: r1) with
            | some (es, r2) => some (.jarr es, r2)
            | none => none)
       | [] => none)
    | 123 :: r =>
      (match r with
       | c :: r1 =>
         if c = 125 then some (.jobj [], r1)
         else
           (match parseMembers fuel (c :: r1) with
            | some (ms, r2) => some (.jobj ms, r2)
            | none => none)
       | [] => none)
    | _ => none
/-- One or more comma-separated values followed by `]` (which is consumed). -/
def parseElems : Nat → List Nat → Option (List JVal × List Nat)
  | 0, _ => none
  | fuel + 1, l =>
    (match parseVal fuel l with
     | some (v, r) =>
       (match r with
        | 44 :: r1 =>
          (match parseElems fuel r1 with
           | some (vs, r2) => some (v :: vs, r2)
           | none => none)
        | 93 :: r1 => some ([v], r1)
        | _ => none)
     | none => none)
/-- One or more comma-separated members followed by `}` (which is consumed). -/
def parseMembers : Nat → List Nat → Option (List (List Nat × JVal) × List Nat)
  | 0, _ => none
  | fuel + 1, l =>
    (match l with
     | 34 :: r =>
       (match parseStrBody r with
        | some (k, r1) =>
          (match r1 with
           | 58 :: r2 =>
             (match parseVal fuel r2 with
              | some (v, r3) =>
                (match r3 with
                 | 44 :: r4 =>
                   (match parseMembers fuel r4 with
                    | some (ms, r5) => some ((k, v) :: ms, r5)
                    | none => none)
                 | 125 :: r4 => some ([(k, v)], r4)
                 | _ => none)
              | none => none)
           | _ => none)
        | none => none)
     | _ => none)
end

/-- Every serialized value begins with a character that closes nothing:
never `]`, `}` or `,`. -/
theorem stringifyVal_head (v : JVal) :
    ∃ c t, stringifyVal v = c :: t ∧ c ≠ 93 ∧ c ≠ 125 ∧ c ≠ 44 := by
  cases v with
  | jstr s => exact ⟨34, _, rfl, by omega, by omega, by omega⟩
  | jbool b => cases b with
    | true => exact ⟨116, _, rfl, by omega, by omega, by omega⟩
    | false => exact ⟨102, _, rfl, by omega, by omega, by omega⟩
  | jarr es => exact ⟨91, _, rfl, by omega, by omega, by omega⟩
  | jobj ms => exact ⟨123, _, rfl, by omega, by omega, by omega⟩

theorem stringifyVal_length_pos (v : JVal) : 0 < (stringifyVal v).length := by
  obtain ⟨c, t, h, -, -, -⟩ := stringifyVal_head v
  simp [h]

/-- The parser's array branch wraps `parseElems` when the content does not
begin with `]`. -/
theorem parseVal_arr_step (f : Nat) (c : Nat) (t : List Nat) (hc : c ≠ 93) :
    parseVal (f + 1) (91 :: c :: t)
      = (match parseElems f (c :: t) with
         | some (es, r2) => some (.jarr es, r2)
         | none => none) := by
  simp only [parseVal]
  rw [if_neg hc]

/-- The parser's object branch wraps `parseMembers` when the content does not
begin with `}`. -/
theorem parseVal_obj_step (f : Nat) (c : Nat) (t : List Nat) (hc : c ≠ 125) :
    parseVal (f + 1) (123 :: c :: t)
      = (match parseMembers f (c :: t) with
         | some (ms, r2) => some (.jobj ms, r2)
         | none => none) := by
  simp only [parseVal]
  rw [if_neg hc]

mutual
/-- The codec round-trip: parsing a serialized value recovers it, for any
fuel above the serialized length. -/
theorem rt_val : ∀ (v : JVal) (fuel : Nat) (rest : List Nat),
    (stringifyVal v).length < fuel →
    parseVal fuel (stringifyVal v ++ rest) = some (v, rest)
  | .jstr s, fuel, rest, hf => by
    cases fuel with
    | zero => exact absurd hf (Nat.not_lt_zero _)
    | succ f =>
      have harg : stringifyVal (.jstr s) ++ rest = 34 :: (quoteBody s ++ 34 :: rest) := by
        simp [stringifyVal, quoteStr]
      rw [harg]
      simp only [parseVal, parseStrBody_quote]
  | .jbool true, fuel, rest, hf => by
    cases fuel with
    | zero => exact absurd hf (Nat.not_lt_zero _)
    | succ f => simp [stringifyVal, parseVal]
  | .jbool false, fuel, rest, hf => by
    cases fuel with
    | zero => exact absurd hf (Nat.not_lt_zero _)
    | succ f => simp [stringifyVal, parseVal]
  | .jarr [], fuel, rest, hf => by
    cases fuel with
    | zero => exact absurd hf (Nat.not_lt_zero _)
    | succ f => simp [stringifyVal, stringifyElems, parseVal]
  | .jarr (e :: es), fuel, rest, hf => by
    cases fuel with
    | zero => exact absurd hf (Nat.not_lt_zero _)
    | succ f =>
      obtain ⟨c, t, hct, hc93, -, -⟩ := stringifyVal_head e
      have harg : stringifyVal (.jarr (e :: es)) ++ rest
          = 91 :: c :: (t ++ elemSep es ++ 93 :: rest) := by
        simp [stringifyVal, stringifyElems, hct]
      have hlen : (stringifyElems (e :: es)).length + 1 < f := by
        have : (stringifyVal (.jarr (e :: es))).length
            = (stringifyElems (e :: es)).length + 2 := by
          simp [stringifyVal]
        omega
      have hkey := rt_elems e es f rest hlen
      have hsplit : stringifyElems (e :: es) ++ 93 :: rest
          = c :: (t ++ elemSep es ++ 93 :: rest) := by
        simp [stringifyElems, hct]
      rw [harg, parseVal_arr_step f c _ hc93, ← hsplit, hkey]
  | .jobj [], fuel, rest, hf => by
    cases fuel with
    | zero => exact absurd hf (Nat.not_lt_zero _)
    | succ f => simp [stringifyVal, stringifyMembers, parseVal]
  | .jobj ((k, v) :: ms), fuel, rest, hf => by
    cases fuel with
    | zero => exact absurd hf (Nat.not_lt_zero _)
    | succ f =>
      have harg : stringifyVal (.jobj ((k, v) :: ms)) ++ rest
          = 123 :: 34 :: (quoteBody k ++ 34 :: 58 :: (stringifyVal v ++ memberSep ms)
              ++ 125 :: rest) := by
        simp [stringifyVal, stringifyMembers, quoteStr]
      have hlen : (stringifyMembers ((k, v) :: ms)).length + 1 < f := by
        have : (stringifyVal (.jobj ((k, v) :: ms))).length
            = (stringifyMembers ((k, v) :: ms)).length + 2 := by
          simp [stringifyVal]
        omega
      have hkey := rt_members k v ms f rest hlen
      have hsplit : stringifyMembers ((k, v) :: ms) ++ 125 :: rest
          = 34 :: (quoteBody k ++ 34 :: 58 :: (stringifyVal v ++ memberSep ms)
              ++ 125 :: rest) := by
        simp [stringifyMembers, quoteStr]
      rw [harg, parseVal_obj_step f 34 _ (by omega), ← hsplit, hkey]
termination_by v _ _ _ => sizeOf v
/-- Round-trip for a non-empty serialized element list up to its `]`. -/
theorem rt_elems : ∀ (e : JVal) (es : List JVal) (fuel : Nat) (rest : List Nat),
    (stringifyElems (e :: es)).length + 1 < fuel →
    parseElems fuel (stringifyElems (e :: es) ++ 93 :: rest) = some (e :: es, rest)
  | e, [], fuel, rest, hf => by
    cases fuel with
    | zero => exact absurd hf (Nat.not_lt_zero _)
    | succ f =>
      have harg : stringifyElems [e] ++ 93 :: rest = stringifyVal e ++ 93 :: rest := by
        simp [stringifyElems, elemSep]
      have hev : (stringifyVal e).length < f := by
        have : (stringifyElems [e]).length = (stringifyVal e).length := by
          simp [stringifyElems, elemSep]
        omega
      rw [harg]
      simp only [parseElems, rt_val e f (93 :: rest) hev]
  | e, x :: xs, fuel, rest, hf => by
    cases fuel with
    | zero => exact absurd hf (Nat.not_lt_zero _)
    | succ f =>
      have hlens : (stringifyElems (e :: x :: xs)).length
          = (stringifyVal e).length + 1 + (stringifyElems (x :: xs)).length := by
        simp [stringifyElems, elemSep]
        omega
      have harg : stringifyElems (e :: x :: xs) ++ 93 :: rest
          = stringifyVal e ++ 44 :: (stringifyElems (x :: xs) ++ 93 :: rest) := by
        simp [stringifyElems, elemSep]
      have hev : (stringifyVal e).length < f := by omega
      have htail : (stringifyElems (x :: xs)).length + 1 < f := by omega
      have hkey := rt_elems x xs f rest htail
      rw [harg]
      simp only [parseElems, rt_val e f _ hev, hkey]
termination_by e es _ _ _ => sizeOf e + sizeOf es + 1
/-- Round-trip for a non-empty serialized member list up to its `}`. -/
theorem rt_members : ∀ (k : List Nat) (v : JVal) (ms : List (List Nat × JVal))
    (fuel : Nat) (rest : List Nat),
    (stringifyMembers ((k, v) :: ms)).length + 1 < fuel →
    parseMembers fuel (stringifyMembers ((k, v) :: ms) ++ 125 :: rest)
      = some ((k, v) :: ms, rest)
  | k, v, [], fuel, rest, hf => by
    cases fuel with
    | zero => exact absurd hf (Nat.not_lt_zero _)
    | succ f =>
      have harg : stringifyMembers [(k, v)] ++ 125 :: rest
          = 34 :: (quoteBody k ++ 34 :: 58 :: (stringifyVal v ++ 125 :: rest)) := by
        simp [stringifyMembers, memberSep, quoteStr]
      have hev : (stringifyVal v).length < f := by
        have : (stringifyMembers [(k, v)]).length
            = (quoteBody k).length + 2 + 1 + (stringifyVal v).length := by
          simp [stringifyMembers, memberSep, quoteStr]
          omega
        omega
      rw [harg]
      simp only [parseMembers, parseStrBody_quote, rt_val v f (125 :: rest) hev]
  | k, v, (k2, v2) :: ms, fuel, rest, hf => by
    cases fuel with
    | zero => exact absurd hf (Nat.not_lt_zero _)
    | succ f =>
      have hlens : (stringifyMembers ((k, v) :: (k2, v2) :: ms)).length
          = (quoteBody k).length + 3 + (stringifyVal v).length + 1
            + (stringifyMembers ((k2, v2) :: ms)).length := by
        simp [stringifyMembers, memberSep, quoteStr]
        omega
      have harg : stringifyMembers ((k, v) :: (k2, v2) :: ms) ++ 125 :: rest
          = 34 :: (quoteBody k ++ 34 :: 58 :: (stringifyVal v
              ++ 44 :: (stringifyMembers ((k2, v2) :: ms) ++ 125 :: rest))) := by
        simp [stringifyMembers, memberSep, quoteStr]
      have hev : (stringifyVal v).length < f := by omega
      have htail : (stringifyMembers ((k2, v2) :: ms)).length + 1 < f := by omega
      have hkey := rt_members k2 v2 ms f rest htail
      rw [harg]
      simp only [parseMembers, parseStrBody_quote, rt_val v f _ hev, hkey]
termination_by k v ms _ _ _ => sizeOf v + sizeOf ms + 1
end

/-! ### Well-formedness: serialized output stays within UTF-16 code units -/

theorem hexDig_lt (d : Nat) (h : d < 16) : hexDig d < 65536 := by
  unfold hexDig; split_ifs <;> omega

theorem escapeUnit_wf (c : Nat) (hc : c < 65536) : ∀ d ∈ escapeUnit c, d < 65536 := by
  unfold escapeUnit
  split_ifs with h34 h92 h8 h9 h10 h12 h13 hlt <;>
    { intro d hd
      simp only [List.mem_cons, List.mem_singleton, List.not_mem_nil, or_false] at hd
      first
      | (rcases hd with h | h | h | h | h | h <;>
          first
          | (subst h; first | omega | exact hexDig_lt _ (by omega))
          | omega)
      | (rcases hd with h | h <;> (subst h; omega))
      | (subst hd; omega) }

theorem quoteBody_wf (s : List Nat) (hs : wfUnits s = true) :
    ∀ d ∈ quoteBody s, d < 65536 := by
  intro d hd
  unfold quoteBody at hd
  rw [List.mem_flatten] at hd
  obtain ⟨piece, hpiece, hdp⟩ := hd
  rw [List.mem_map] at hpiece
  obtain ⟨c, hcs, rfl⟩ := hpiece
  have hc : c < 65536 := by
    simp only [wfUnits, List.all_eq_true, decide_eq_true_eq] at hs
    exact hs c hcs
  exact escapeUnit_wf c hc d hdp

mutual
/-- All strings (member keys and string values) of the JSON value are lists of
valid UTF-16 code units. -/
def jWfB : JVal → Bool
  | .jstr s => wfUnits s
  | .jbool _ => true
  | .jarr es => jWfElems es
  | .jobj ms => jWfMembers ms
/-- `jWfB` over an element list. -/
def jWfElems : List JVal → Bool
  | [] => true
  | e :: es => jWfB e && jWfElems es
/-- `jWfB` over a member list, keys included. -/
def jWfMembers : List (List Nat × JVal) → Bool
  | [] => true
  | (k, v) :: ms => wfUnits k && jWfB v && jWfMembers ms
end

mutual
/-- Serializing a well-formed value yields only valid UTF-16 code units. -/
theorem wfS_val : ∀ (v : JVal), jWfB v = true → ∀ c ∈ stringifyVal v, c < 65536
  | .jstr s, h, c, hc => by
    simp only [jWfB] at h
    simp only [stringifyVal, quoteStr, List.mem_cons, List.mem_append,
      List.mem_singleton, List.not_mem_nil, or_false] at hc
    rcases hc with rfl | hc | rfl
    · omega
    · exact quoteBody_wf s h c hc
    · omega
  | .jbool true, _, c, hc => by
    simp only [stringifyVal, List.mem_cons, List.not_mem_nil, or_false] at hc
    rcases hc with rfl | rfl | rfl | rfl <;> omega
  | .jbool false, _, c, hc => by
    simp only [stringifyVal, List.mem_cons, List.not_mem_nil, or_false] at hc
    rcases hc with rfl | rfl | rfl | rfl | rfl <;> omega
  | .jarr es, h, c, hc => by
    simp only [jWfB] at h
    simp only [stringifyVal, List.mem_cons, List.mem_append, List.mem_singleton,
      List.not_mem_nil, or_false] at hc
    rcases hc with rfl | hc | rfl
    · omega
    · exact wfS_elems es h c hc
    · omega
  | .jobj ms, h, c, hc => by
    simp only [jWfB] at h
    simp only [stringifyVal, List.mem_cons, List.mem_append, List.mem_singleton,
      List.not_mem_nil, or_false] at hc
    rcases hc with rfl | hc | rfl
    · omega
    · exact wfS_members ms h c hc
    · omega
termination_by v _ _ _ => sizeOf v
/-- `wfS_val` over a serialized element list. -/
theorem wfS_elems : ∀ (es : List JVal), jWfElems es = true →
    ∀ c ∈ stringifyElems es, c < 65536
  | [], _, c, hc => by simp [stringifyElems] at hc
  | e :: es, h, c, hc => by
    simp only [jWfElems, Bool.and_eq_true] at h
    simp only [stringifyElems, List.mem_append] at hc
    rcases hc with hc | hc
    · exact wfS_val e h.1 c hc
    · exact wfS_esep es h.2 c hc
termination_by es _ _ _ => sizeOf es
/-- `wfS_val` over an element separator tail. -/
theorem wfS_esep : ∀ (es : List JVal), jWfElems es = true → ∀ c ∈ elemSep es, c < 65536
  | [], _, c, hc => by simp [elemSep] at hc
  | x :: xs, h, c, hc => by
    simp only [jWfElems, Bool.and_eq_true] at h
    simp only [elemSep, List.mem_cons, List.mem_append] at hc
    rcases hc with rfl | hc | hc
    · omega
    · exact wfS_val x h.1 c hc
    · exact wfS_esep xs h.2 c hc
termination_by es _ _ _ => sizeOf es
/-- `wfS_val` over a serialized member list. -/
theorem wfS_members : ∀ (ms : List (List Nat × JVal)), jWfMembers ms = true →
    ∀ c ∈ stringifyMembers ms, c < 65536
  | [], _, c, hc => by simp [stringifyMembers] at hc
  | (k, v) :: ms, h, c, hc => by
    simp only [jWfMembers, Bool.and_eq_true] at h
    simp only [stringifyMembers, quoteStr, List.mem_append, List.mem_cons,
      List.mem_singleton, List.not_mem_nil, or_false] at hc
    rcases hc with (rfl | hc | rfl) | rfl | hc | hc
    · omega
    · exact quoteBody_wf k h.1.1 c hc
    · omega
    · omega
    · exact wfS_val v h.1.2 c hc
    · exact wfS_msep ms h.2 c hc
termination_by ms _ _ _ => sizeOf ms
/-- `wfS_val` over a member separator tail. -/
theorem wfS_msep : ∀ (ms : List (List Nat × JVal)), jWfMembers ms = true →
    ∀ c ∈ memberSep ms, c < 65536
  | [], _, c, hc => by simp [memberSep] at hc
  | (k, v) :: ms, h, c, hc => by
    simp only [jWfMembers, Bool.and_eq_true] at h
    simp only [memberSep, quoteStr, List.mem_cons, List.mem_append,
      List.mem_singleton, List.not_mem_nil, or_false] at hc
    rcases hc with rfl | (rfl | hc | rfl) | rfl | hc | hc
    · omega
    · omega
    · exact quoteBody_wf k h.1.1 c hc
    · omega
    · omega
    · exact wfS_val v h.1.2 c hc
    · exact wfS_msep ms h.2 c hc
termination_by ms _ _ _ => sizeOf ms
end

theorem stringifyVal_wf (v : JVal) (h : jWfB v = true) :
    wfUnits (stringifyVal v) = true := by
  simp only [wfUnits, List.all_eq_true, decide_eq_true_eq]
  exact wfS_val v h

/-! ### `docs/lib/codesandbox.js`: payload construction -/

/-- `compress` from the source: `LZString.compressToBase64(input)`, then
`+` (43) to `-` (45), then `/` (47) to `_` (95), then strip trailing `=`
(61). The compression utility is the ambient global, passed here as `lz`. -/
def compress (lz : List Nat → List Nat) (input : List Nat) : List Nat :=
  rtrimEq (replAll 47 95 (replAll 43 45 (lz input)))

/-- `getParameters` from the source: `compress(JSON.stringify(parameters))`. -/
def getParameters (lz : List Nat → List Nat) (parameters : JVal) : List Nat :=
  compress lz (stringifyVal parameters)

/-- The `package.json` `content` object of the template in `getFiles`. -/
def packageJsonContent : JVal :=
  .jobj [
    (codeUnits "main", .jstr (codeUnits "index.html")),
    (codeUnits "scripts", .jobj [
      (codeUnits "start", .jstr (codeUnits "parcel index.html --open")),
      (codeUnits "build", .jstr (codeUnits "parcel build index.html"))]),
    (codeUnits "dependencies", .jobj [
      (codeUnits "fp-ts", .jstr (codeUnits "^2.9"))]),
    (codeUnits "devDependencies", .jobj [
      (codeUnits "parcel-bundler", .jstr (codeUnits "^1.6.1"))])]

/-- The fixed `package.json` file of the template. -/
def packageJsonFile : JVal := .jobj [(codeUnits "content", packageJsonContent)]

/-- The `tsconfig.json` `content` object of the template in `getFiles`. -/
def tsconfigContent : JVal :=
  .jobj [(codeUnits "compilerOptions", .jobj [
    (codeUnits "module", .jstr (codeUnits "commonjs")),
    (codeUnits "moduleResolution", .jstr (codeUnits "node")),
    (codeUnits "target", .jstr (codeUnits "es2015")),
    (codeUnits "lib", .jarr [.jstr (codeUnits "es2015"), .jstr (codeUnits "dom")]),
    (codeUnits "strict", .jbool true),
    (codeUnits "noUnusedParameters", .jbool true),
    (codeUnits "noUnusedLocals", .jbool true),
    (codeUnits "noUncheckedIndexedAccess", .jbool true),
    (codeUnits "noImplicitReturns", .jbool true),
    (codeUnits "noFallthroughCasesInSwitch", .jbool true)])]

/-- The fixed `tsconfig.json` file of the template. -/
def tsconfigFile : JVal := .jobj [(codeUnits "content", tsconfigContent)]

/-- The fixed `index.html` file of the template. -/
def indexHtmlFile : JVal :=
  .jobj [(codeUnits "content",
    .jstr (codeUnits "<script src='src/index.ts'></script>"))]

/-- The document passed to `getParameters` by `getFiles`: the fixed project
template with the code block text as the `src/index.ts` content. -/
def projectDoc (content : List Nat) : JVal :=
  .jobj [(codeUnits "files", .jobj [
    (codeUnits "package.json", packageJsonFile),
    (codeUnits "tsconfig.json", tsconfigFile),
    (codeUnits "index.html", indexHtmlFile),
    (codeUnits "src/index.ts", .jobj [(codeUnits "content", .jstr content)])])]

/-- `getFiles` from the source: the payload for one code block's text. -/
def getFiles (lz : List Nat → List Nat) (content : List Nat) : List Nat :=
  getParameters lz (projectDoc content)

/-! ### Decoding a payload, as the round-trip claims describe it -/

/-- The decoding pipeline of the claims: reverse the URL-safe substitutions
(`-` to `+`, `_` to `/`), restore the `=` padding, decompress with the
LZ-string base64 decoder, then parse the JSON (requiring full consumption). -/
def decodePayload (p : List Nat) : Option JVal :=
  match LZString.decompressFromBase64 (padEq (replAll 95 47 (replAll 45 43 p))) with
  | none => none
  | some s =>
    match parseVal (s.length + 1) s with
    | some (v, []) => some v
    | _ => none

/-- The two URL-safe substitutions of `compress`, on one code unit. -/
def fwdUnit (c : Nat) : Nat :=
  if (if c = 43 then 45 else c) = 47 then 95 else (if c = 43 then 45 else c)

/-- The two reverse substitutions of decoding, on one code unit. -/
def bwdUnit (c : Nat) : Nat :=
  if (if c = 45 then 43 else c) = 95 then 47 else (if c = 45 then 43 else c)

theorem replAll_fwd (l : List Nat) :
    replAll 47 95 (replAll 43 45 l) = l.map fwdUnit := by
  simp only [replAll, List.map_map]
  rfl

theorem replAll_bwd (l : List Nat) :
    replAll 95 47 (replAll 45 43 l) = l.map bwdUnit := by
  simp only [replAll, List.map_map]
  rfl

theorem bwdUnit_fwdUnit (c : Nat) (h45 : c ≠ 45) (h95 : c ≠ 95) :
    bwdUnit (fwdUnit c) = c := by
  unfold fwdUnit bwdUnit
  split_ifs <;> omega

theorem fwdUnit_ne61 (c : Nat) (h : c ≠ 61) : fwdUnit c ≠ 61 := by
  unfold fwdUnit
  split_ifs <;> omega

/-- Reversing the substitutions and restoring the padding of a produced
payload recovers the base64 compressor output exactly. -/
theorem transport_roundtrip (x : List Nat) :
    padEq (replAll 95 47 (replAll 45 43 (compress LZString.compressToBase64 x)))
      = LZString.compressToBase64 x := by
  have hchar : ∀ c ∈ LZString.encodeUnits x, c ≠ 45 ∧ c ≠ 61 ∧ c ≠ 95 := by
    intro c hc
    obtain ⟨n, rfl⟩ := LZString.mem_encodeUnits hc
    exact LZString.b64Char_bounds n
  have hcompress : compress LZString.compressToBase64 x
      = (LZString.encodeUnits x).map fwdUnit := by
    unfold compress LZString.compressToBase64 padEq
    rw [replAll_fwd, List.map_append, List.map_replicate]
    have h61 : fwdUnit 61 = 61 := by decide
    rw [h61]
    refine rtrimEq_append_replicate _ _ ?_
    intro c hc
    rw [List.mem_map] at hc
    obtain ⟨d, hd, rfl⟩ := hc
    exact fwdUnit_ne61 d (hchar d hd).2.1
  rw [hcompress, replAll_bwd, List.map_map]
  have hid : (LZString.encodeUnits x).map (bwdUnit ∘ fwdUnit) = LZString.encodeUnits x := by
    have h1 : (LZString.encodeUnits x).map (bwdUnit ∘ fwdUnit)
        = (LZString.encodeUnits x).map id :=
      List.map_congr_left (fun c hc => bwdUnit_fwdUnit c (hchar c hc).1 (hchar c hc).2.2)
    rw [h1, List.map_id]
  rw [hid]
  rfl

/-- The document passed to `getParameters` is well-formed whenever the code
block text is. -/
theorem projectDoc_jWf (T : List Nat) (h : wfUnits T = true) :
    jWfB (projectDoc T) = true := by
  simp only [projectDoc, packageJsonFile, packageJsonContent, tsconfigFile,
    tsconfigContent, indexHtmlFile, jWfB, jWfMembers, jWfElems, h]
  decide

/-- The main shared round-trip: decoding the payload `getFiles` produces for
any code block text recovers exactly the project document for that text. -/
theorem decodePayload_getFiles (T : List Nat) (h : wfUnits T = true) :
    decodePayload (getFiles LZString.compressToBase64 T) = some (projectDoc T) := by
  have hwfs : wfUnits (stringifyVal (projectDoc T)) = true :=
    stringifyVal_wf _ (projectDoc_jWf T h)
  unfold decodePayload getFiles getParameters
  rw [transport_roundtrip, LZString.decompress_compress _ hwfs]
  have hparse := rt_val (projectDoc T) ((stringifyVal (projectDoc T)).length + 1) []
    (by omega)
  rw [List.append_nil] at hparse
  simp only [hparse]

/-! ### Field access on decoded documents -/

/-- First member of an object list with the given key (JS property access). -/
def lookupKey : List (List Nat × JVal) → List Nat → Option JVal
  | [], _ => none
  | (k, v) :: ms, key => if k = key then some v else lookupKey ms key

/-- Property access on a JSON value. -/
def jget : JVal → List Nat → Option JVal
  | .jobj ms, key => lookupKey ms key
  | .jstr _, _ => none
  | .jbool _, _ => none
  | .jarr _, _ => none

/-- Follow a path of property names. -/
def jpath : JVal → List (List Nat) → Option JVal
  | v, [] => some v
  | v, k :: ks =>
    match jget v k with
    | some w => jpath w ks
    | none => none

/-! ### `docsifyCodesandboxPlugin`: the render-completion hook on the page -/

/-- The form `insertAdjacentHTML` appends to a code block: the fixed query
field and the payload carried by the hidden `parameters` field. -/
structure CodeForm where
  query : List Nat
  parameters : List Nat
deriving DecidableEq

/-- The form built for one payload, with the source's fixed query string. -/
def mkCodeForm (payload : List Nat) : CodeForm :=
  { query := codeUnits "previewwindow=console", parameters := payload }

/-- A `pre[data-lang]` element: the text of its `code` child if it has one
(`querySelector("code")` returns null otherwise), and the forms appended
inside it so far. -/
structure CodeBlock where
  codeText : Option (List Nat)
  forms : List CodeForm
deriving DecidableEq

/-- The per-block work of the hook when everything is in place. -/
def injectForm (lzf : List Nat → List Nat) (b : CodeBlock) : CodeBlock :=
  match b.codeText with
  | some t => { b with forms := b.forms ++ [mkCodeForm (getFiles lzf t)] }
  | none => b

/-- One `doneEach` pass over the matched blocks, in document order. For each
block the source reads `el.querySelector("code").textContent` (a thrown type
error if there is no `code` child) and then evaluates `getFiles(content)`
while building the form markup (a thrown reference error if the `LZString`
global never loaded); an exception aborts the `forEach`, leaving that block
and all later blocks untouched. Returns the blocks after the pass and
whether an uncaught exception escaped it. -/
def doneEachPass (lz : Option (List Nat → List Nat)) :
    List CodeBlock → List CodeBlock × Bool
  | [] => ([], false)
  | b :: bs =>
    match b.codeText with
    | none => (b :: bs, true)
    | some t =>
      match lz with
      | none => (b :: bs, true)
      | some lzf =>
        let rec' := doneEachPass lz bs
        ({ b with forms := b.forms ++ [mkCodeForm (getFiles lzf t)] } :: rec'.1, rec'.2)

/-- Clicking an injected form submits the stored hidden field value as-is:
no compression happens at click time. -/
def clickSubmitPayload (f : CodeForm) : List Nat := f.parameters

/-! ### Page-level side effects -/

/-- The document as the script sees it: the script elements, the children of
`head`, and the matched code blocks (elements as opaque tags). -/
structure PageDoc where
  scripts : List Nat
  headChildren : List Nat
  blocks : List CodeBlock

/-- `loadLzString` from the source: create a script element and insert it
before the first existing script element (`s.parentNode.insertBefore(el, s)`;
with no script element present the lookup is undefined and the access
throws, returning `none` here). -/
def loadLzString (el : Nat) (d : PageDoc) : Option PageDoc :=
  match d.scripts with
  | [] => none
  | s :: rest => some { d with scripts := el :: s :: rest }

/-- `addStyles` from the source: append a new style element to
`document.head`. -/
def addStyles (styleEl : Nat) (d : PageDoc) : PageDoc :=
  { d with headChildren := d.headChildren ++ [styleEl] }

/-- The hook applied to the whole document. -/
def runDoneEach (lz : Option (List Nat → List Nat)) (d : PageDoc) : PageDoc × Bool :=
  let r := doneEachPass lz d.blocks
  ({ d with blocks := r.1 }, r.2)

/-! ### Plugin registration at script evaluation time -/

/-- `window.$docsify`, with the plugin list and all other configuration
fields kept opaque. -/
structure DocsifyConfig where
  plugins : Option (List Nat)
  otherFields : List (List Nat × List Nat)
deriving DecidableEq

/-- The two final statements of the source:
`window.$docsify = window.$docsify || {}` and
`window.$docsify.plugins = [docsifyCodesandboxPlugin].concat(window.$docsify.plugins || [])`,
with plugins as opaque tags and this plugin's tag passed in as `pid`. -/
def registerPlugin (pid : Nat) (w : Option DocsifyConfig) : DocsifyConfig :=
  let d : DocsifyConfig := match w with
    | none => { plugins := none, otherFields := [] }
    | some d => d
  { d with plugins := some (pid :: (match d.plugins with | none => [] | some ps => ps)) }

/-! ### Helper lemmas shared by the claims -/

theorem fwdUnit_ne_43 (d : Nat) : fwdUnit d ≠ 43 := by
  unfold fwdUnit; split_ifs <;> omega

theorem fwdUnit_ne_47 (d : Nat) : fwdUnit d ≠ 47 := by
  unfold fwdUnit; split_ifs <;> omega

/-- When every matched block has a `code` child and the compression global is
present, a `doneEach` pass appends one form per block and nothing escapes. -/
theorem doneEachPass_all_ok (lzf : List Nat → List Nat) (blocks : List CodeBlock)
    (h : ∀ b ∈ blocks, b.codeText ≠ none) :
    doneEachPass (some lzf) blocks = (blocks.map (injectForm lzf), false) := by
  induction blocks with
  | nil => rfl
  | cons b bs ih =>
    have hb : b.codeText ≠ none := h b (List.mem_cons_self b bs)
    obtain ⟨t, ht⟩ := Option.ne_none_iff_exists'.mp hb
    have ihh := ih (fun x hx => h x (List.mem_cons_of_mem b hx))
    simp [doneEachPass, ht, ihh, injectForm]

/-- `getFiles` evaluated under an ambient `LZString` binding that may have
failed to load: evaluation throws (`none`) exactly when the global is
absent, and otherwise cannot fail. -/
def getFilesUnder (lz : Option (List Nat → List Nat)) (content : List Nat) :
    Option (List Nat) :=
  match lz with
  | none => none
  | some lzf => some (getFiles lzf content)

/-! ### The claims -/

/-- C10: Script-evaluation-time plugin registration prepends this plugin to
the previously registered docsify plugin list (or to the empty list if none
existed, starting from a fresh empty configuration object) and changes no
other field of `window.$docsify`. -/
theorem c10_plugin_registration (pid : Nat) :
    (∀ d : DocsifyConfig, registerPlugin pid (some d)
        = { d with plugins := some (pid :: d.plugins.getD []) }) ∧
    registerPlugin pid none = { plugins := some [pid], otherFields := [] } := by
  constructor
  · intro d
    unfold registerPlugin
    cases h : d.plugins <;> simp [h]
  · rfl

/-- C2 counterexample: with the `LZString` global absent and a single code
block on the page, the render-completion pass itself raises (it attempts
compression while building the form markup), instead of completing and
deferring the failure to a click; no form is even injected for a click to
reach. This falsifies the claim that the hook completes without attempting
compression and that the failure occurs only on click. -/
theorem c2_counterexample :
    (doneEachPass none [⟨some (codeUnits "const x = 1;"), []⟩]).2 = true ∧
    (doneEachPass none [⟨some (codeUnits "const x = 1;"), []⟩]).1
      = [⟨some (codeUnits "const x = 1;"), []⟩] := by
  constructor <;> rfl

/-- C2 (amended): if the `LZString` global fails to load, payload compression
fails at injection time, not at click time: the render-completion hook
evaluates `getFiles` while building each form's markup, so the pass raises at
the first matched block with a code child and leaves every block untouched;
a click on an already-injected form performs no compression and merely
submits the stored payload. -/
theorem c2_amended_failure_at_injection :
    ∀ (t : List Nat) (fs : List CodeForm) (bs : List CodeBlock),
      doneEachPass none (⟨some t, fs⟩ :: bs) = (⟨some t, fs⟩ :: bs, true) ∧
      ∀ f : CodeForm, clickSubmitPayload f = f.parameters := by
  intro t fs bs
  exact ⟨rfl, fun f => rfl⟩

/-- C3: for every compressor output and every serialized document, the
payload `getParameters` produces contains no `+` (43) and no `/` (47), and
does not end in `=` (61). -/
theorem c3_url_safety (lz : List Nat → List Nat) (v : JVal) :
    ((getParameters lz v).all (fun c => !(c == 43) && !(c == 47))) = true ∧
    (getParameters lz v).getLast? ≠ some 61 := by
  constructor
  · rw [List.all_eq_true]
    intro c hc
    unfold getParameters compress at hc
    have hc' := mem_rtrimEq hc
    rw [replAll_fwd, List.mem_map] at hc'
    obtain ⟨d, -, rfl⟩ := hc'
    simp [fwdUnit_ne_43 d, fwdUnit_ne_47 d]
  · exact rtrimEq_getLast? _

/-- C7: payload construction is a pure, deterministic, total function of the
code block text and the fixed template: under a loaded compression global it
always succeeds, its value is exactly the compression of the serialized
fixed template carrying the text, and the text is embedded verbatim with no
sanitization. -/
theorem c7_pure_total (lzf : List Nat → List Nat) (T : List Nat) :
    getFilesUnder (some lzf) T = some (getFiles lzf T) ∧
    getFiles lzf T = compress lzf (stringifyVal (projectDoc T)) ∧
    jpath (projectDoc T) [codeUnits "files", codeUnits "src/index.ts", codeUnits "content"]
      = some (.jstr T) := by
  refine ⟨rfl, rfl, ?_⟩
  simp +decide [projectDoc, packageJsonFile, tsconfigFile, indexHtmlFile, jpath, jget,
    lookupKey]

/-- C5: when every matched block has a `code` child and starts with no
injected form, one render-completion pass injects exactly one form per block
(so exactly N forms for N blocks), nothing escapes the pass, and the form
appended to each block carries the payload of that block's own text and no
other. -/
theorem c5_per_block_isolation (lzf : List Nat → List Nat) (blocks : List CodeBlock)
    (h : ∀ b ∈ blocks, b.codeText ≠ none) :
    doneEachPass (some lzf) blocks = (blocks.map (injectForm lzf), false) ∧
    (blocks.map (injectForm lzf)).length = blocks.length ∧
    ∀ b ∈ blocks, ∀ t, b.codeText = some t →
      (injectForm lzf b).codeText = some t ∧
      (injectForm lzf b).forms = b.forms ++ [mkCodeForm (getFiles lzf t)] := by
  refine ⟨doneEachPass_all_ok lzf blocks h, List.length_map _ _, ?_⟩
  intro b _ t ht
  simp [injectForm, ht]

/-- C5 witness: the pass on a concrete two-block page. -/
theorem c5_per_block_isolation_witness :
    (∀ b ∈ [(⟨some (codeUnits "1 + 1"), []⟩ : CodeBlock),
            ⟨some (codeUnits "2 + 2"), []⟩], b.codeText ≠ none) ∧
    (doneEachPass (some LZString.compressToBase64)
        [(⟨some (codeUnits "1 + 1"), []⟩ : CodeBlock), ⟨some (codeUnits "2 + 2"), []⟩]
      = ([(⟨some (codeUnits "1 + 1"), []⟩ : CodeBlock),
          ⟨some (codeUnits "2 + 2"), []⟩].map (injectForm LZString.compressToBase64),
        false) ∧
    ([(⟨some (codeUnits "1 + 1"), []⟩ : CodeBlock),
      ⟨some (codeUnits "2 + 2"), []⟩].map (injectForm LZString.compressToBase64)).length
      = [(⟨some (codeUnits "1 + 1"), []⟩ : CodeBlock), ⟨some (codeUnits "2 + 2"), []⟩].length ∧
    ∀ b ∈ [(⟨some (codeUnits "1 + 1"), []⟩ : CodeBlock),
           ⟨some (codeUnits "2 + 2"), []⟩], ∀ t, b.codeText = some t →
      (injectForm LZString.compressToBase64 b).codeText = some t ∧
      (injectForm LZString.compressToBase64 b).forms
        = b.forms ++ [mkCodeForm (getFiles LZString.compressToBase64 t)]) :=
  ⟨by decide, c5_per_block_isolation LZString.compressToBase64 _ (by decide)⟩

/-- C9: if a matched block has no `code` child, reading `textContent` of the
null `querySelector` result raises, aborting the pass: the blocks before it
each get their form, but no form is injected into that block or any later
one, and the exception escapes. -/
theorem c9_missing_code_aborts (lzf : List Nat → List Nat) (good : List CodeBlock)
    (bad : CodeBlock) (rest : List CodeBlock)
    (hgood : ∀ b ∈ good, b.codeText ≠ none) (hbad : bad.codeText = none) :
    doneEachPass (some lzf) (good ++ bad :: rest)
      = (good.map (injectForm lzf) ++ bad :: rest, true) := by
  induction good with
  | nil =>
    obtain ⟨ct, fs⟩ := bad
    cases ct with
    | none => rfl
    | some t => simp at hbad
  | cons g gs ih =>
    have hg : g.codeText ≠ none := hgood g (List.mem_cons_self g gs)
    obtain ⟨t, ht⟩ := Option.ne_none_iff_exists'.mp hg
    have ihh := ih (fun x hx => hgood x (List.mem_cons_of_mem g hx))
    simp [doneEachPass, ht, ihh, injectForm]

/-- C9 witness: a concrete page where the second block has no `code` child. -/
theorem c9_missing_code_aborts_witness :
    (∀ b ∈ [(⟨some (codeUnits "1 + 1"), []⟩ : CodeBlock)], b.codeText ≠ none) ∧
    (⟨none, []⟩ : CodeBlock).codeText = none ∧
    doneEachPass (some LZString.compressToBase64)
        ([(⟨some (codeUnits "1 + 1"), []⟩ : CodeBlock)]
          ++ (⟨none, []⟩ : CodeBlock) :: [⟨some (codeUnits "2 + 2"), []⟩])
      = ([(⟨some (codeUnits "1 + 1"), []⟩ : CodeBlock)].map
          (injectForm LZString.compressToBase64)
          ++ (⟨none, []⟩ : CodeBlock) :: [⟨some (codeUnits "2 + 2"), []⟩], true) :=
  ⟨by decide, rfl, c9_missing_code_aborts LZString.compressToBase64 _ _ _ (by decide) rfl⟩

/-- C8: the document mutations are append-only with respect to pre-existing
content: initialization inserts the new script element in front of the first
existing script element (changing nothing else), style installation appends
one style element to `head` (changing nothing else), and a pass of the
render-completion hook only appends a form at the end of each matched block,
leaving every script, head child and code text unchanged. -/
theorem c8_append_only (el styleEl : Nat) (lzf : List Nat → List Nat) (d : PageDoc)
    (hs : d.scripts ≠ []) (hb : ∀ b ∈ d.blocks, b.codeText ≠ none) :
    loadLzString el d = some { d with scripts := el :: d.scripts } ∧
    addStyles styleEl d = { d with headChildren := d.headChildren ++ [styleEl] } ∧
    (runDoneEach (some lzf) d).1.scripts = d.scripts ∧
    (runDoneEach (some lzf) d).1.headChildren = d.headChildren ∧
    (runDoneEach (some lzf) d).1.blocks = d.blocks.map (injectForm lzf) ∧
    ∀ b ∈ d.blocks, (injectForm lzf b).codeText = b.codeText ∧
      ∃ add, (injectForm lzf b).forms = b.forms ++ add := by
  have hpass := doneEachPass_all_ok lzf d.blocks hb
  refine ⟨?_, rfl, ?_, ?_, ?_, ?_⟩
  · obtain ⟨s, rest, hsr⟩ : ∃ s rest, d.scripts = s :: rest := by
      cases h : d.scripts with
      | nil => exact absurd h hs
      | cons s rest => exact ⟨s, rest, rfl⟩
    unfold loadLzString
    rw [hsr]
  · rfl
  · rfl
  · simp [runDoneEach, hpass]
  · intro b _
    cases ht : b.codeText with
    | none => exact ⟨by simp [injectForm, ht], [], by simp [injectForm, ht]⟩
    | some t =>
      refine ⟨?_, [mkCodeForm (getFiles lzf t)], ?_⟩ <;> simp [injectForm, ht]

/-- C8 witness: the three mutations on a concrete document. -/
theorem c8_append_only_witness :
    (PageDoc.mk [1] [2] [⟨some (codeUnits "1 + 1"), []⟩]).scripts ≠ [] ∧
    (∀ b ∈ (PageDoc.mk [1] [2] [⟨some (codeUnits "1 + 1"), []⟩]).blocks,
      b.codeText ≠ none) ∧
    (loadLzString 7 (PageDoc.mk [1] [2] [⟨some (codeUnits "1 + 1"), []⟩])
      = some { PageDoc.mk [1] [2] [⟨some (codeUnits "1 + 1"), []⟩] with
          scripts := 7 :: (PageDoc.mk [1] [2] [⟨some (codeUnits "1 + 1"), []⟩]).scripts } ∧
    addStyles 8 (PageDoc.mk [1] [2] [⟨some (codeUnits "1 + 1"), []⟩])
      = { PageDoc.mk [1] [2] [⟨some (codeUnits "1 + 1"), []⟩] with
          headChildren := (PageDoc.mk [1] [2]
            [⟨some (codeUnits "1 + 1"), []⟩]).headChildren ++ [8] } ∧
    (runDoneEach (some LZString.compressToBase64)
        (PageDoc.mk [1] [2] [⟨some (codeUnits "1 + 1"), []⟩])).1.scripts
      = (PageDoc.mk [1] [2] [⟨some (codeUnits "1 + 1"), []⟩]).scripts ∧
    (runDoneEach (some LZString.compressToBase64)
        (PageDoc.mk [1] [2] [⟨some (codeUnits "1 + 1"), []⟩])).1.headChildren
      = (PageDoc.mk [1] [2] [⟨some (codeUnits "1 + 1"), []⟩]).headChildren ∧
    (runDoneEach (some LZString.compressToBase64)
        (PageDoc.mk [1] [2] [⟨some (codeUnits "1 + 1"), []⟩])).1.blocks
      = (PageDoc.mk [1] [2] [⟨some (codeUnits "1 + 1"), []⟩]).blocks.map
          (injectForm LZString.compressToBase64) ∧
    ∀ b ∈ (PageDoc.mk [1] [2] [⟨some (codeUnits "1 + 1"), []⟩]).blocks,
      (injectForm LZString.compressToBase64 b).codeText = b.codeText ∧
      ∃ add, (injectForm LZString.compressToBase64 b).forms = b.forms ++ add) :=
  ⟨by decide, by decide,
    c8_append_only 7 8 LZString.compressToBase64 _ (by decide) (by decide)⟩

/-- C1: for every code block text, decoding the payload `getFiles` produces
(reversing the substitutions `-` to `+` and `_` to `/`, restoring the `=`
padding, decompressing with the LZ-string base64 decoder, then parsing the
JSON) yields exactly the project document whose `src/index.ts` content is
that text verbatim — special characters, Unicode and the empty string
included — and whose other files are the fixed template files. -/
theorem c1_roundtrip_payload (T : List Nat) (h : wfUnits T = true) :
    decodePayload (getFiles LZString.compressToBase64 T) = some (projectDoc T) ∧
    jpath (projectDoc T) [codeUnits "files", codeUnits "src/index.ts", codeUnits "content"]
      = some (.jstr T) ∧
    jpath (projectDoc T) [codeUnits "files", codeUnits "package.json"]
      = some packageJsonFile ∧
    jpath (projectDoc T) [codeUnits "files", codeUnits "tsconfig.json"]
      = some tsconfigFile ∧
    jpath (projectDoc T) [codeUnits "files", codeUnits "index.html"]
      = some indexHtmlFile := by
  refine ⟨decodePayload_getFiles T h, ?_, ?_, ?_, ?_⟩ <;>
    simp +decide [projectDoc, packageJsonFile, tsconfigFile, indexHtmlFile, jpath, jget,
      lookupKey]

/-- C1 witness: the round-trip at a concrete text with a quote, Unicode
(`β`, `✓`) and a newline. -/
theorem c1_roundtrip_payload_witness :
    wfUnits (codeUnits "const s = \"β✓\";\n") = true ∧
    (decodePayload (getFiles LZString.compressToBase64 (codeUnits "const s = \"β✓\";\n"))
      = some (projectDoc (codeUnits "const s = \"β✓\";\n")) ∧
    jpath (projectDoc (codeUnits "const s = \"β✓\";\n"))
        [codeUnits "files", codeUnits "src/index.ts", codeUnits "content"]
      = some (.jstr (codeUnits "const s = \"β✓\";\n")) ∧
    jpath (projectDoc (codeUnits "const s = \"β✓\";\n"))
        [codeUnits "files", codeUnits "package.json"] = some packageJsonFile ∧
    jpath (projectDoc (codeUnits "const s = \"β✓\";\n"))
        [codeUnits "files", codeUnits "tsconfig.json"] = some tsconfigFile ∧
    jpath (projectDoc (codeUnits "const s = \"β✓\";\n"))
        [codeUnits "files", codeUnits "index.html"] = some indexHtmlFile) :=
  ⟨by decide, c1_roundtrip_payload _ (by decide)⟩

/-- C4: for the concrete code block text `const x = 1;`, the decoded project
is the project document for that text, whose `src/index.ts` content is the
literal text, whose manifest `main` is `index.html`, and whose compiler
configuration `target` is the fixed `es2015`. -/
theorem c4_concrete_scenario :
    decodePayload (getFiles LZString.compressToBase64 (codeUnits "const x = 1;"))
      = some (projectDoc (codeUnits "const x = 1;")) ∧
    jpath (projectDoc (codeUnits "const x = 1;"))
        [codeUnits "files", codeUnits "src/index.ts", codeUnits "content"]
      = some (.jstr (codeUnits "const x = 1;")) ∧
    jpath (projectDoc (codeUnits "const x = 1;"))
        [codeUnits "files", codeUnits "package.json", codeUnits "content", codeUnits "main"]
      = some (.jstr (codeUnits "index.html")) ∧
    jpath (projectDoc (codeUnits "const x = 1;"))
        [codeUnits "files", codeUnits "tsconfig.json", codeUnits "content",
         codeUnits "compilerOptions", codeUnits "target"]
      = some (.jstr (codeUnits "es2015")) := by
  refine ⟨decodePayload_getFiles _ (by decide), ?_, ?_, ?_⟩ <;>
    simp +decide [projectDoc, packageJsonFile, packageJsonContent, tsconfigFile,
      tsconfigContent, indexHtmlFile, jpath, jget, lookupKey]

/-- C6: the empty code block text still yields a well-formed, decodable
payload (no failure), whose decoded `src/index.ts` content is the empty
string. -/
theorem c6_empty_input :
    decodePayload (getFiles LZString.compressToBase64 []) = some (projectDoc []) ∧
    jpath (projectDoc [])
        [codeUnits "files", codeUnits "src/index.ts", codeUnits "content"]
      = some (.jstr []) := by
  refine ⟨decodePayload_getFiles [] (by decide), ?_⟩
  simp +decide [projectDoc, packageJsonFile, tsconfigFile, indexHtmlFile, jpath, jget,
    lookupKey]
